import Mathlib

/-!
Verification development for the PCR-duplicate merging pipeline of
`bin/merge_pcr_duplicates.py`.

The script loads a fasta barcode library into a two-column table `bcs`
(read_id, bc), loads a bed6 alignment file into a six-column table `alns`
(chrom, start, stop, read_id, score, strand), inner-joins the two tables on
read_id, raises when the join is empty, drops joined rows whose barcode
contains the uncalled base N, groups the remaining rows by
(chrom, start, stop, strand, bc) counting group sizes, and writes the
collapsed rows as tab-separated lines.

The definitions below are a shallow embedding of that pipeline: DataFrames
become lists of records, `pd.merge` becomes an explicit nested-loop inner
join, `groupby(...).size()` becomes distinct-keys-sorted-with-counts, and
`to_csv` becomes tab-joined field lists.
-/

/-- One row of the alignment table `alns`, as loaded by
`pd.read_csv(sep="\t", names=["chrom", "start", "stop", "read_id", "score", "strand"])`
from a well-formed bed6 line. -/
structure AlnRecord where
  chrom : String
  start : Int
  stop : Int
  read_id : String
  score : String
  strand : String
deriving DecidableEq

/-- One row of the barcode-library table `bcs`: an (id, sequence) pair yielded
by `fasta_tuple_generator` and collected by `pd.DataFrame.from_records` with
columns ["read_id", "bc"]. -/
structure BcEntry where
  read_id : String
  bc : String
deriving DecidableEq

/-- One row of `bcalib = pd.merge(bcs, alns, on="read_id", how="inner")`:
the shared join column plus the remaining columns of both tables. -/
structure JoinedRecord where
  read_id : String
  bc : String
  chrom : String
  start : Int
  stop : Int
  score : String
  strand : String
deriving DecidableEq

/-- `pd.merge(bcs, alns, on="read_id", how="inner", sort=False)`: one output
row per pair of a `bcs` row and an `alns` row agreeing on read_id, ordered by
the left (`bcs`) rows and, within one left row, by the matching right rows. -/
def mergeJoin (bcs : List BcEntry) (alns : List AlnRecord) : List JoinedRecord :=
  bcs.flatMap (fun b =>
    (alns.filter (fun a => a.read_id == b.read_id)).map (fun a =>
      { read_id := b.read_id, bc := b.bc, chrom := a.chrom, start := a.start,
        stop := a.stop, score := a.score, strand := a.strand }))

/-- The join stage (script lines 101-107): build `bcalib` and raise
`Exception` when `bcalib.empty`, otherwise continue with `bcalib`. -/
def joinStage (bcs : List BcEntry) (alns : List AlnRecord) :
    Except String (List JoinedRecord) :=
  let bcalib := mergeJoin bcs alns
  if bcalib.isEmpty then
    Except.error ("ERROR: no common entries for alignments and barcode library found. Please check your input files.")
  else
    Except.ok bcalib

/-- `bcalib.bc.str.contains("N")` for one barcode string: the regex "N"
matches somewhere in the string iff the character N occurs in it.  The test is
case-sensitive, so a lowercase n does not match. -/
def bcHasN (s : String) : Bool :=
  s.data.any (fun c => c == 'N')

/-- The quality filter (script lines 115-116):
`bcalib.drop(bcalib[bcalib.bc.str.contains("N")].index)` removes exactly the
rows whose barcode contains N, keeping the remaining rows in order (the merge
result carries a fresh range index, so dropping by those index labels removes
exactly the matching rows). -/
def qualityFilter (l : List JoinedRecord) : List JoinedRecord :=
  l.filter (fun r => !(bcHasN r.bc))

/-- The grouping key of `groupby(['chrom', 'start', 'stop', 'strand', 'bc'])`. -/
abbrev GroupKey := String × Int × Int × String × String

/-- The grouping key of one joined row. -/
def recKey (r : JoinedRecord) : GroupKey :=
  (r.chrom, r.start, r.stop, r.strand, r.bc)

/-- The lexicographic synonym pandas sorts group keys by: string order on
chrom, numeric order on start and stop, string order on strand and bc,
compared left to right. -/
abbrev GroupKeyL := Lex (String × Lex (Int × Lex (Int × Lex (String × String))))

/-- View a grouping key through the lexicographic order synonym. -/
def keyLex (k : GroupKey) : GroupKeyL :=
  toLex (k.1, toLex (k.2.1, toLex (k.2.2.1, toLex (k.2.2.2.1, k.2.2.2.2))))

/-- Ascending lexicographic order on grouping keys, the order in which
`groupby(..., sort=True)` (the default) emits the groups. -/
def keyLE (a b : GroupKey) : Prop := keyLex a ≤ keyLex b

/-- Strict version of `keyLE`. -/
def keyLT (a b : GroupKey) : Prop := keyLex a < keyLex b

instance : DecidableRel keyLE :=
  fun a b => inferInstanceAs (Decidable (keyLex a ≤ keyLex b))

instance : DecidableRel keyLT :=
  fun a b => inferInstanceAs (Decidable (keyLex a < keyLex b))

theorem keyLex_injective : Function.Injective keyLex := by
  rintro ⟨a1, a2, a3, a4, a5⟩ ⟨b1, b2, b3, b4, b5⟩ h
  simp only [keyLex, toLex_inj, Prod.mk.injEq] at h
  obtain ⟨h1, h2, h3, h4, h5⟩ := h
  subst h1; subst h2; subst h3; subst h4; subst h5
  rfl

instance : IsTotal GroupKey keyLE :=
  ⟨fun a b => le_total (keyLex a) (keyLex b)⟩

instance : IsTrans GroupKey keyLE :=
  ⟨fun _ _ _ hab hbc => le_trans hab hbc⟩

instance : IsAntisymm GroupKey keyLE :=
  ⟨fun _ _ hab hba => keyLex_injective (le_antisymm hab hba)⟩

theorem keyLT_of_keyLE_ne {a b : GroupKey} (hle : keyLE a b) (hne : a ≠ b) :
    keyLT a b :=
  lt_of_le_of_ne hle (fun h => hne (keyLex_injective h))

/-- The size of the group of key `k`: how many rows of the table carry
exactly that key tuple. -/
def keyCount (ks : List GroupKey) (k : GroupKey) : Nat :=
  ks.countP (fun x => decide (x = k))

/-- `groupby(['chrom', 'start', 'stop', 'strand', 'bc']).size()` applied to a
list of key tuples: the distinct keys in ascending `keyLE` order, each paired
with the number of rows bearing it. -/
def collapseKeys (ks : List GroupKey) : List (GroupKey × Nat) :=
  (List.insertionSort keyLE ks.dedup).map (fun k => (k, keyCount ks k))

/-- One row of the final `merged` table: a group key together with the group
size `ndupes` (the column produced by `.size()` and renamed on line 129). -/
structure CollapsedRecord where
  chrom : String
  start : Int
  stop : Int
  strand : String
  bc : String
  ndupes : Nat
deriving DecidableEq

/-- `reset_index` materializing one keyed group size as a row of `merged`. -/
def buildCollapsed (p : GroupKey × Nat) : CollapsedRecord :=
  { chrom := p.1.1, start := p.1.2.1, stop := p.1.2.2.1,
    strand := p.1.2.2.2.1, bc := p.1.2.2.2.2, ndupes := p.2 }

/-- The collapse stage (script lines 128-129):
`merged = bcalib_cleaned.groupby(['chrom', 'start', 'stop', 'strand', 'bc']).size().reset_index()`
followed by renaming the size column to ndupes. -/
def collapse (l : List JoinedRecord) : List CollapsedRecord :=
  (collapseKeys (l.map recKey)).map buildCollapsed

/-- The grouping key carried by one collapsed row. -/
def ckey (c : CollapsedRecord) : GroupKey :=
  (c.chrom, c.start, c.stop, c.strand, c.bc)

/-- One output line of
`merged.to_csv(columns=['chrom', 'start', 'stop', 'bc', 'ndupes', 'strand'], sep="\t", index=False, header=False)`:
the six selected columns of one row, in that order, joined by tabs. -/
def writeRecord (c : CollapsedRecord) : String :=
  c.chrom ++ "\t" ++ toString c.start ++ "\t" ++ toString c.stop ++ "\t" ++
    c.bc ++ "\t" ++ toString c.ndupes ++ "\t" ++ c.strand

/-- The full `to_csv` output: one line per collapsed row, no header line. -/
def writeOutput (l : List CollapsedRecord) : List String :=
  l.map writeRecord

/-- The pipeline from the loaded tables to the collapsed rows
(script lines 101-129): join, empty check, quality filter, collapse. -/
def pipeline (bcs : List BcEntry) (alns : List AlnRecord) :
    Except String (List CollapsedRecord) :=
  match joinStage bcs alns with
  | Except.error e => Except.error e
  | Except.ok bcalib => Except.ok (collapse (qualityFilter bcalib))

theorem ckey_buildCollapsed (p : GroupKey × Nat) : ckey (buildCollapsed p) = p.1 := rfl

theorem keyCount_eq_count (ks : List GroupKey) (k : GroupKey) :
    keyCount ks k = @List.count GroupKey instBEqOfDecidableEq k ks := rfl

theorem map_ckey_aux (cnt : GroupKey → Nat) (ks : List GroupKey) :
    (((ks.map (fun k => (k, cnt k))).map buildCollapsed).map ckey) = ks := by
  induction ks with
  | nil => rfl
  | cons a t ih => simp only [List.map_cons, ckey_buildCollapsed, ih]

theorem map_ndupes_aux (cnt : GroupKey → Nat) (ks : List GroupKey) :
    (((ks.map (fun k => (k, cnt k))).map buildCollapsed).map CollapsedRecord.ndupes) =
      ks.map cnt := by
  induction ks with
  | nil => rfl
  | cons a t ih =>
    simp only [List.map_cons, ih]
    rfl

theorem collapse_map_ckey (l : List JoinedRecord) :
    (collapse l).map ckey = List.insertionSort keyLE (l.map recKey).dedup := by
  unfold collapse collapseKeys
  exact map_ckey_aux _ _

theorem mem_sortedKeys {k : GroupKey} {ks : List GroupKey} :
    k ∈ List.insertionSort keyLE ks.dedup ↔ k ∈ ks :=
  (List.perm_insertionSort keyLE ks.dedup).mem_iff.trans List.mem_dedup

theorem sortedKeys_nodup (ks : List GroupKey) :
    (List.insertionSort keyLE ks.dedup).Nodup :=
  ((List.perm_insertionSort keyLE ks.dedup).nodup_iff).mpr (List.nodup_dedup ks)

/-- C1: collapse partitions the filtered rows into equivalence classes keyed
by (chrom, start, stop, strand, bc).  Exactly one collapsed row is emitted per
non-empty class (the emitted keys are pairwise distinct and are exactly the
keys occurring among the input rows), each row's ndupes is the cardinality of
its class, hence positive, and the ndupes values sum to the number of input
rows. -/
theorem collapse_partitions (l : List JoinedRecord) :
    ((collapse l).map ckey).Nodup ∧
    (∀ k : GroupKey, k ∈ (collapse l).map ckey ↔ ∃ r ∈ l, recKey r = k) ∧
    (∀ c ∈ collapse l,
      c.ndupes = (l.filter (fun r => decide (recKey r = ckey c))).length ∧
        0 < c.ndupes) ∧
    ((collapse l).map CollapsedRecord.ndupes).sum = l.length := by
  have hmc := collapse_map_ckey l
  refine ⟨?_, fun k => ?_, fun c hc => ?_, ?_⟩
  · rw [hmc]
    exact sortedKeys_nodup _
  · rw [hmc]
    exact mem_sortedKeys.trans List.mem_map
  · obtain ⟨p, hp, hpc⟩ := List.mem_map.mp hc
    obtain ⟨k, hk, hpk⟩ := List.mem_map.mp hp
    subst hpc
    subst hpk
    constructor
    · rw [ckey_buildCollapsed]
      show keyCount (l.map recKey) k = _
      unfold keyCount
      rw [List.countP_map, List.countP_eq_length_filter]
      rfl
    · show 0 < keyCount (l.map recKey) k
      unfold keyCount
      rw [List.countP_pos_iff]
      exact ⟨k, mem_sortedKeys.mp hk, by simp⟩
  · unfold collapse collapseKeys
    rw [map_ndupes_aux]
    have hperm := (List.perm_insertionSort keyLE (l.map recKey).dedup).map
      (keyCount (l.map recKey))
    rw [hperm.sum_eq]
    have hfn : (keyCount (l.map recKey)) =
        fun x => @List.count GroupKey instBEqOfDecidableEq x (l.map recKey) :=
      funext fun x => keyCount_eq_count _ x
    rw [hfn, List.sum_map_count_dedup_eq_length, List.length_map]

/-- C2: the collapsed rows are strictly sorted ascending by
(chrom, start, stop, strand, bc) under the lexicographic order (string order
on chrom, strand, bc; numeric order on start, stop); in particular no two
output rows share a key. -/
theorem collapse_output_strictly_sorted (l : List JoinedRecord) :
    ((collapse l).map ckey).Pairwise keyLT ∧ ((collapse l).map ckey).Nodup := by
  have hs : ((collapse l).map ckey).Pairwise keyLE := by
    rw [collapse_map_ckey]
    exact List.sorted_insertionSort keyLE _
  have hn : ((collapse l).map ckey).Nodup := by
    rw [collapse_map_ckey]
    exact sortedKeys_nodup _
  exact ⟨(hs.and hn).imp (fun h => keyLT_of_keyLE_ne h.1 h.2), hn⟩

theorem collapseKeys_congr_of_perm {ks ks2 : List GroupKey} (h : ks.Perm ks2) :
    collapseKeys ks = collapseKeys ks2 := by
  unfold collapseKeys
  have hd : ks.dedup.Perm ks2.dedup := h.dedup
  have hsp : (List.insertionSort keyLE ks.dedup).Perm
      (List.insertionSort keyLE ks2.dedup) :=
    ((List.perm_insertionSort keyLE ks.dedup).trans hd).trans
      (List.perm_insertionSort keyLE ks2.dedup).symm
  have hseq : List.insertionSort keyLE ks.dedup = List.insertionSort keyLE ks2.dedup :=
    List.eq_of_perm_of_sorted hsp (List.sorted_insertionSort keyLE _)
      (List.sorted_insertionSort keyLE _)
  rw [hseq]
  exact List.map_congr_left (fun k _ => by
    unfold keyCount
    rw [h.countP_eq])

theorem collapse_congr_of_key_perm {l1 l2 : List JoinedRecord}
    (h : (l1.map recKey).Perm (l2.map recKey)) : collapse l1 = collapse l2 := by
  unfold collapse
  rw [collapseKeys_congr_of_perm h]

/-- C7: collapse is invariant under permutation of its input: any reordering
of the filtered rows yields the identical list of collapsed rows. -/
theorem collapse_perm_invariant (l l2 : List JoinedRecord) (h : l.Perm l2) :
    collapse l = collapse l2 :=
  collapse_congr_of_key_perm (h.map recKey)

/-- The conceptual re-expansion of one collapsed row: ndupes identical joined
rows bearing the row's key fields.  read_id and score are not retained by a
CollapsedRecord, so the expansion fixes them to empty strings; collapse
ignores both. -/
def expandCollapsed (c : CollapsedRecord) : List JoinedRecord :=
  List.replicate c.ndupes
    { read_id := "", bc := c.bc, chrom := c.chrom, start := c.start,
      stop := c.stop, score := "", strand := c.strand }

/-- Re-expansion of a whole collapsed table into ndupes copies per row. -/
def expandAll (l : List CollapsedRecord) : List JoinedRecord :=
  l.flatMap expandCollapsed

theorem sum_map_ite_mem (x : GroupKey) (f : GroupKey → Nat) :
    ∀ S : List GroupKey, S.Nodup →
      (S.map (fun k => if k = x then f k else 0)).sum = if x ∈ S then f x else 0 := by
  intro S
  induction S with
  | nil => intro _; simp
  | cons a t ih =>
    intro hnd
    rw [List.nodup_cons] at hnd
    obtain ⟨ha, ht⟩ := hnd
    simp only [List.map_cons, List.sum_cons, ih ht, List.mem_cons]
    by_cases hax : a = x
    · subst hax
      simp [ha]
    · have hxa : ¬x = a := fun h => hax h.symm
      simp [hax, hxa]

theorem keyCount_replicate (n : Nat) (k x : GroupKey) :
    keyCount (List.replicate n k) x = if k = x then n else 0 := by
  induction n with
  | zero => simp [keyCount]
  | succ m ih =>
    rw [List.replicate_succ]
    unfold keyCount at ih ⊢
    rw [List.countP_cons]
    by_cases h : k = x
    · simp [h] at ih ⊢
      exact ih
    · simp [h] at ih ⊢

theorem keyCount_flatMap_replicate (cnt : GroupKey → Nat) (x : GroupKey) :
    ∀ S : List GroupKey,
      keyCount (S.flatMap fun k => List.replicate (cnt k) k) x =
        (S.map fun k => if k = x then cnt k else 0).sum := by
  intro S
  induction S with
  | nil => rfl
  | cons a t ih =>
    rw [List.flatMap_cons, List.map_cons, List.sum_cons, ← ih, ← keyCount_replicate (cnt a) a x]
    unfold keyCount
    rw [List.countP_append]

theorem keyCount_eq_zero_of_not_mem {ks : List GroupKey} {x : GroupKey}
    (hx : x ∉ ks) : keyCount ks x = 0 := by
  unfold keyCount
  rw [List.countP_eq_zero]
  intro a ha
  simp only [decide_eq_true_eq]
  intro h
  exact hx (h ▸ ha)

theorem flatMap_replicate_keyCount_perm (ks : List GroupKey) :
    ((List.insertionSort keyLE ks.dedup).flatMap
      (fun k => List.replicate (keyCount ks k) k)).Perm ks := by
  rw [List.perm_iff_count]
  intro x
  rw [← keyCount_eq_count, ← keyCount_eq_count]
  rw [keyCount_flatMap_replicate (keyCount ks) x _]
  rw [sum_map_ite_mem x (keyCount ks) _ (sortedKeys_nodup _)]
  by_cases hx : x ∈ ks
  · rw [if_pos (mem_sortedKeys.mpr hx)]
  · rw [if_neg (fun hmem => hx (mem_sortedKeys.mp hmem))]
    exact (keyCount_eq_zero_of_not_mem hx).symm

theorem expandAll_key_perm (l : List JoinedRecord) :
    ((expandAll (collapse l)).map recKey).Perm (l.map recKey) := by
  have h1 : (expandAll (collapse l)).map recKey =
      (collapse l).flatMap (fun c => List.replicate c.ndupes (ckey c)) := by
    unfold expandAll
    rw [List.map_flatMap]
    have hfn : (fun c : CollapsedRecord => (expandCollapsed c).map recKey) =
        fun c => List.replicate c.ndupes (ckey c) := by
      funext c
      unfold expandCollapsed
      rw [List.map_replicate]
      rfl
    rw [hfn]
  have h2 : (collapse l).flatMap (fun c => List.replicate c.ndupes (ckey c)) =
      (List.insertionSort keyLE (l.map recKey).dedup).flatMap
        (fun k => List.replicate (keyCount (l.map recKey) k) k) := by
    unfold collapse collapseKeys
    rw [List.flatMap_map, List.flatMap_map]
    rfl
  rw [h1, h2]
  exact flatMap_replicate_keyCount_perm (l.map recKey)

/-- C8: collapse is idempotent under re-expansion: expanding every collapsed
row into ndupes identical joined rows and collapsing again reproduces exactly
the original collapsed output. -/
theorem collapse_idempotent_under_expansion (l : List JoinedRecord) :
    collapse (expandAll (collapse l)) = collapse l :=
  collapse_congr_of_key_perm (expandAll_key_perm l)

/-- C4: the quality filter keeps a joined row iff its barcode has no
occurrence of the character N (the test is case-sensitive: a lowercase n is
not an uncalled base), and consequently every collapsed row emitted after the
filter carries an N-free barcode. -/
theorem filter_removes_exactly_N (l : List JoinedRecord) :
    (∀ r : JoinedRecord, r ∈ qualityFilter l ↔ r ∈ l ∧ bcHasN r.bc = false) ∧
    (∀ c ∈ collapse (qualityFilter l), bcHasN c.bc = false) ∧
    bcHasN ("acgn") = false ∧ bcHasN ("acgN") = true := by
  refine ⟨fun r => ?_, fun c hc => ?_, rfl, rfl⟩
  · unfold qualityFilter
    rw [List.mem_filter, Bool.not_eq_eq_eq_not, Bool.not_true]
  · have hk : ckey c ∈ (collapse (qualityFilter l)).map ckey :=
      List.mem_map.mpr ⟨c, hc, rfl⟩
    rw [collapse_map_ckey] at hk
    obtain ⟨r, hr, hrk⟩ := List.mem_map.mp (mem_sortedKeys.mp hk)
    have hbc : r.bc = c.bc := congrArg (fun k : GroupKey => k.2.2.2.2) hrk
    have hfil := (List.mem_filter.mp hr).2
    rw [← hbc]
    rw [Bool.not_eq_eq_eq_not, Bool.not_true] at hfil
    exact hfil

/-- Whether the join stage aborted with the no-overlap exception. -/
def joinAborts (bcs : List BcEntry) (alns : List AlnRecord) : Bool :=
  match joinStage bcs alns with
  | Except.error _ => true
  | Except.ok _ => false

/-- C3 counterexample: with an empty alignment table (and empty library) the
join result is empty and the script raises the no-overlap exception, so the
error is not raised exactly when the join is empty AND the alignment input is
non-empty: the second condition does not constrain the code. -/
theorem joinStage_error_despite_empty_alignments :
    joinAborts [] [] = true ∧
      ¬ (mergeJoin [] [] = [] ∧ ([] : List AlnRecord) ≠ []) :=
  ⟨rfl, fun h => h.2 rfl⟩

/-- C3 amended: the join stage raises the fatal no-overlap exception exactly
when the joined result is empty — whether or not the alignment input itself
was empty — and raises nothing when the join result is non-empty. -/
theorem joinStage_error_iff_empty_join (bcs : List BcEntry) (alns : List AlnRecord) :
    joinAborts bcs alns = true ↔ mergeJoin bcs alns = [] := by
  cases hE : mergeJoin bcs alns with
  | nil => simp [joinAborts, joinStage, hE]
  | cons a t => simp [joinAborts, joinStage, hE]

/-- C9: the writer serializes each collapsed row as exactly the six fields
chrom, start, stop, bc, ndupes, strand in that order, tab-separated, and
produces one output line per row with no header line. -/
theorem writer_six_fields (l : List CollapsedRecord) :
    (writeOutput l).length = l.length ∧
    ∀ c ∈ l, writeRecord c = String.intercalate ("\t")
      [c.chrom, toString c.start, toString c.stop, c.bc, toString c.ndupes,
        c.strand] := by
  refine ⟨List.length_map _ _, fun c _ => ?_⟩
  unfold writeRecord
  simp [String.intercalate, String.intercalate.go, String.append_assoc]

/-- C6 counterexample: a read identifier occurring twice in the barcode
library is joined once per library row, not once with the last library
barcode: the single alignment for r1 yields two joined rows, carrying both
barcodes AA and CC in library order. -/
theorem mergeJoin_duplicate_ids_not_last_wins :
    (mergeJoin [⟨"r1", "AA"⟩, ⟨"r1", "CC"⟩]
        [⟨"chr1", 1, 2, "r1", "0", "+"⟩]).map (fun j => j.bc) = ["AA", "CC"] ∧
    ¬ (mergeJoin [⟨"r1", "AA"⟩, ⟨"r1", "CC"⟩]
        [⟨"chr1", 1, 2, "r1", "0", "+"⟩]).length = 1 :=
  ⟨rfl, by decide⟩

/-- C6 amended: the loader keeps every library record, so the inner join
pairs each alignment with every library row sharing its read identifier: for
any read identifier the number of joined rows bearing it is the number of
library rows bearing it times the number of alignments bearing it (one joined
row per such pair, in library order). -/
theorem mergeJoin_multiplicity (bcs : List BcEntry) (alns : List AlnRecord)
    (rid : String) :
    ((mergeJoin bcs alns).filter (fun j => j.read_id == rid)).length =
      (bcs.filter (fun b => b.read_id == rid)).length *
        (alns.filter (fun a => a.read_id == rid)).length := by
  induction bcs with
  | nil => simp [mergeJoin]
  | cons b t ih =>
    unfold mergeJoin at ih ⊢
    rw [List.flatMap_cons, List.filter_append, List.length_append, ih,
      List.filter_map]
    have hpred : ((fun j : JoinedRecord => j.read_id == rid) ∘ fun a : AlnRecord =>
        ({ read_id := b.read_id, bc := b.bc, chrom := a.chrom, start := a.start,
            stop := a.stop, score := a.score, strand := a.strand } : JoinedRecord)) =
        fun _ : AlnRecord => b.read_id == rid := rfl
    rw [hpred]
    by_cases hb : (b.read_id == rid) = true
    · have hbeq : b.read_id = rid := eq_of_beq hb
      rw [show List.filter (fun x : BcEntry => x.read_id == rid) (b :: t) =
          b :: List.filter (fun x : BcEntry => x.read_id == rid) t from
          List.filter_cons_of_pos hb, List.length_cons]
      simp only [hb, List.filter_true, List.length_map]
      rw [hbeq]
      ring
    · rw [show List.filter (fun x : BcEntry => x.read_id == rid) (b :: t) =
          List.filter (fun x : BcEntry => x.read_id == rid) t from
          List.filter_cons_of_neg hb]
      have hb2 : (b.read_id == rid) = false := by
        cases hval : (b.read_id == rid) with
        | false => rfl
        | true => exact absurd hval hb
      simp only [hb2, List.filter_false, List.length_map, List.length_nil]
      omega

/-- C10: when the join result is non-empty but every joined row's barcode
contains N, the script raises no error and terminates with an empty output:
the empty-join check runs on the join result before the quality filter. -/
theorem pipeline_all_N_barcodes_ok_empty (bcs : List BcEntry)
    (alns : List AlnRecord) (hne : mergeJoin bcs alns ≠ [])
    (hN : ∀ r ∈ mergeJoin bcs alns, bcHasN r.bc = true) :
    pipeline bcs alns = Except.ok [] := by
  cases hE : mergeJoin bcs alns with
  | nil => exact absurd hE hne
  | cons a t =>
    rw [hE] at hN
    have hfil : qualityFilter (a :: t) = [] := by
      unfold qualityFilter
      rw [List.filter_eq_nil_iff]
      intro r hr
      rw [hN r hr]
      decide
    simp [pipeline, joinStage, hE, hfil]
    rfl

/-- Splitting a line on the tab character, leftmost first; consecutive or
leading and trailing tabs give empty fields (the separator semantics of
`pd.read_csv(sep="\t")` for one row). -/
def splitTabs : List Char → List (List Char)
  | [] => [[]]
  | c :: rest =>
    match splitTabs rest with
    | [] => [[]]
    | f :: fs => if c = '\t' then [] :: f :: fs else (c :: f) :: fs

/-- One raw row of the alignment table as `pd.read_csv` actually loads it
(script lines 94-98): six named columns; a field a short line does not supply
is NaN (here `none`).  No dtype is requested, so start and stop stay
unparsed text and no integer validation happens at load time. -/
structure RawAlnRow where
  chrom : Option String
  start : Option String
  stop : Option String
  read_id : Option String
  score : Option String
  strand : Option String
deriving DecidableEq

/-- The interval record loader applied to one line, per the semantics of
`pd.read_csv(sep="\t", names=[six names])`: the line is split on tabs and the
fields are assigned to the named columns left to right, with missing trailing
fields filled as NaN.  The loader is total: no field count or numeric check
is performed and no exception is raised for a short line. -/
def readAlnRow (line : String) : RawAlnRow :=
  let fs := (splitTabs line.data).map (fun cs => String.mk cs)
  { chrom := fs[0]?, start := fs[1]?, stop := fs[2]?, read_id := fs[3]?,
    score := fs[4]?, strand := fs[5]? }

/-- C5: a line with only five tab-separated fields is accepted by the loader,
which fills the missing strand column with NaN and raises no error — there is
no MalformedRecordError in the script (its own TODO notes that handling for
wrong field counts is missing). -/
theorem readAlnRow_accepts_five_fields :
    readAlnRow ("chr1\t100\t110\tr1\t0") =
      { chrom := some "chr1", start := some "100", stop := some "110",
        read_id := some "r1", score := some "0", strand := none } := by
  rfl

/-- Witness for C7 at a concrete input: two joined rows swapped. -/
theorem collapse_perm_invariant_witness :
    ([⟨"r1", "AA", "chr1", 1, 2, "0", "+"⟩, ⟨"r2", "GG", "chr2", 5, 9, "0", "-"⟩] :
        List JoinedRecord).Perm
      [⟨"r2", "GG", "chr2", 5, 9, "0", "-"⟩, ⟨"r1", "AA", "chr1", 1, 2, "0", "+"⟩] ∧
    collapse [⟨"r1", "AA", "chr1", 1, 2, "0", "+"⟩, ⟨"r2", "GG", "chr2", 5, 9, "0", "-"⟩] =
      collapse [⟨"r2", "GG", "chr2", 5, 9, "0", "-"⟩, ⟨"r1", "AA", "chr1", 1, 2, "0", "+"⟩] :=
  ⟨by decide, collapse_perm_invariant
    [⟨"r1", "AA", "chr1", 1, 2, "0", "+"⟩, ⟨"r2", "GG", "chr2", 5, 9, "0", "-"⟩]
    [⟨"r2", "GG", "chr2", 5, 9, "0", "-"⟩, ⟨"r1", "AA", "chr1", 1, 2, "0", "+"⟩]
    (by decide)⟩

/-- Witness for C10 at a concrete input: one joined row whose barcode is NN;
the join is non-empty, the filter drops everything, the output is empty and
no error is raised. -/
theorem pipeline_all_N_barcodes_ok_empty_witness :
    (mergeJoin [⟨"r1", "NN"⟩] [⟨"chr1", 1, 2, "r1", "0", "+"⟩] ≠ [] ∧
      (mergeJoin [⟨"r1", "NN"⟩] [⟨"chr1", 1, 2, "r1", "0", "+"⟩]).all
        (fun r => bcHasN r.bc) = true) ∧
    pipeline [⟨"r1", "NN"⟩] [⟨"chr1", 1, 2, "r1", "0", "+"⟩] = Except.ok [] :=
  ⟨⟨by decide, by decide⟩,
    pipeline_all_N_barcodes_ok_empty [⟨"r1", "NN"⟩] [⟨"chr1", 1, 2, "r1", "0", "+"⟩]
      (by decide) (by decide)⟩
